import Mathlib

/-
  Verification of the avram parser-combinator library (github.com/stntngo/avram).

  The Go sources are shallowly embedded: Go's mutable *Scanner becomes explicit
  state passing (a parser is `Scanner → Scanner × Except GoError A`), machine
  integers become Nat, Go's (value, error) returns become `Except`, and the
  unbounded Go loops / recursions (Many, ChainL1, SepBy, the lexer driver)
  take an explicit fuel argument.  `GoError.fuelOut` is an artifact of the
  embedding marking that a Go loop has not terminated within the given fuel;
  it corresponds to no Go error value.
-/

namespace Avram

/-- Model of Go error values as used by the library: `errors.New`/`fmt.Errorf`
    messages, `io.EOF`, `fmt.Errorf("...: %w", inner)` wrapping (the wrapped
    error may be nil, hence `Option`), and `go.uber.org/multierr` aggregates.
    `fuelOut` is the embedding's divergence marker (see header comment). -/
inductive GoError where
  | eof : GoError
  | msg (s : String) : GoError
  | wrapErr (pfx : String) (inner : Option GoError) : GoError
  | multi (errs : List GoError) : GoError
  | fuelOut : GoError
deriving Repr

/-- The list of individual errors an error aggregates
    (`multierr.Errors`): a `multi` is its list, anything else is itself. -/
def GoError.leaves : GoError → List GoError
  | .multi es => es
  | e => [e]

/-- multierr invariant: a combined error with a single member is that member. -/
def mkMulti (es : List GoError) : GoError :=
  match es with
  | [e] => e
  | es => .multi es

/-- `multierr.Append` on Go errors (`nil` = `none`): skips nils, otherwise
    flattens both sides into one combined error. -/
def appendErr (a b : Option GoError) : Option GoError :=
  match a, b with
  | none, b => b
  | some a, none => some a
  | some a, some b => some (mkMulti (a.leaves ++ b.leaves))

/-- `multierr.Combine(e1, e2)` for two non-nil errors. -/
def combineErr (e1 e2 : GoError) : GoError :=
  mkMulti (e1.leaves ++ e2.leaves)

/-- `multierr.Append` over a list of collected branch errors, as the Choice
    loop accumulates them (starting from a nil `errs`). -/
def errsOf (es : List GoError) : Option GoError :=
  es.foldl (fun acc e => appendErr acc (some e)) none

/-- `unicode/utf8.RuneError` (U+FFFD). -/
def runeError : Nat := 0xFFFD

/-- Go's `rune` for `'\n'`. -/
def newlineRune : Nat := 10

/-- A UTF-8 continuation byte (`0x80..0xBF`). -/
def isCont (b : Nat) : Bool := 0x80 ≤ b && b ≤ 0xBF

/-- `unicode/utf8.DecodeRuneInString` on the byte list `s`: returns the first
    rune and its byte width.  Faithful to Go: ASCII decodes to itself with
    width 1; well-formed multi-byte sequences (with Go's overlong/surrogate
    lower-bound checks on the second byte) decode with width 2..4; anything
    invalid yields `(RuneError, 1)`; the empty string yields `(RuneError, 0)`. -/
def decodeRune (s : List Nat) : Nat × Nat :=
  match s with
  | [] => (runeError, 0)
  | b0 :: rest =>
    if b0 < 0x80 then (b0, 1)
    else if b0 < 0xC2 then (runeError, 1)
    else if b0 < 0xE0 then
      match rest with
      | b1 :: _ =>
        if isCont b1 then ((b0 % 0x20) * 0x40 + b1 % 0x40, 2)
        else (runeError, 1)
      | [] => (runeError, 1)
    else if b0 < 0xF0 then
      match rest with
      | b1 :: b2 :: _ =>
        let lo1 : Nat := if b0 = 0xE0 then 0xA0 else 0x80
        let hi1 : Nat := if b0 = 0xED then 0x9F else 0xBF
        if lo1 ≤ b1 && b1 ≤ hi1 && isCont b2 then
          ((b0 % 0x10) * 0x1000 + (b1 % 0x40) * 0x40 + b2 % 0x40, 3)
        else (runeError, 1)
      | _ => (runeError, 1)
    else if b0 < 0xF5 then
      match rest with
      | b1 :: b2 :: b3 :: _ =>
        let lo1 : Nat := if b0 = 0xF0 then 0x90 else 0x80
        let hi1 : Nat := if b0 = 0xF4 then 0x8F else 0xBF
        if lo1 ≤ b1 && b1 ≤ hi1 && isCont b2 && isCont b3 then
          ((b0 % 8) * 0x40000 + (b1 % 0x40) * 0x1000 + (b2 % 0x40) * 0x40 + b3 % 0x40, 4)
        else (runeError, 1)
      | _ => (runeError, 1)
    else (runeError, 1)

/-- The UTF-8 encoding of one code point. -/
def encodeChar (c : Nat) : List Nat :=
  if c < 0x80 then [c]
  else if c < 0x800 then [0xC0 + c / 0x40, 0x80 + c % 0x40]
  else if c < 0x10000 then
    [0xE0 + c / 0x1000, 0x80 + c / 0x40 % 0x40, 0x80 + c % 0x40]
  else
    [0xF0 + c / 0x40000, 0x80 + c / 0x1000 % 0x40, 0x80 + c / 0x40 % 0x40,
      0x80 + c % 0x40]

/-- The UTF-8 bytes of a Lean string, as the byte list a Go `string` holds. -/
def strBytes (s : String) : List Nat :=
  (s.data.map (fun c => c.toNat)).flatMap encodeChar

/-- The avram `Scanner` (scanner.go): the input string as bytes, the start
    offset of the last emitted token, the current byte position, the width
    history of read but un-emitted runes (most recent last), and the current
    line number. -/
structure Scanner where
  input : List Nat
  start : Nat
  pos : Nat
  width : List Nat
  line : Nat
deriving Repr, DecidableEq

/-- `NewScanner(input)`. -/
def mkScanner (s : String) : Scanner :=
  { input := strBytes s, start := 0, pos := 0, width := [], line := 0 }

/-- A parse outcome: the (mutated) scanner together with a value or an error. -/
abbrev PResult (A : Type) := Scanner × Except GoError A

/-- The avram `Parser[A]`: a function from the scanner to a value or error,
    with the scanner state threaded explicitly (Go mutates it in place). -/
abbrev Parser (A : Type) := Scanner → PResult A

/-- `Scanner.ReadRune`: at end of input, clears the whole width history and
    returns `io.EOF`; otherwise decodes one rune at `pos`, appends its width
    to the history, advances `pos` by that width, and increments `line` on a
    newline. -/
def Scanner.ReadRune (s : Scanner) : Scanner × Except GoError (Nat × Nat) :=
  if s.input.length ≤ s.pos then
    ({ s with width := [] }, .error .eof)
  else
    let rw := decodeRune (s.input.drop s.pos)
    ({ s with
        width := s.width ++ [rw.2]
        pos := s.pos + rw.2
        line := if rw.1 = newlineRune then s.line + 1 else s.line },
      .ok rw)

/-- `Scanner.UnreadRune`: fails if the width history is empty; otherwise pops
    the most recent width and moves `pos` back by it.  (The line counter is
    not touched.) -/
def Scanner.UnreadRune (s : Scanner) : Scanner × Except GoError Unit :=
  if s.width.length < 1 then
    (s, .error (.msg "no runes to unread"))
  else
    ({ s with width := s.width.dropLast, pos := s.pos - s.width.getLastD 0 }, .ok ())

/-- `Scanner.MatchRune(match)` (scanner.go, committed-choice revision): reads
    one rune, applies the rule; on rejection returns
    `multierr.Append(err, s.UnreadRune())`. -/
def Scanner.MatchRune (rule : Nat → Option GoError) (s : Scanner) : PResult Nat :=
  let r := s.ReadRune
  match r.2 with
  | .error e => (r.1, .error e)
  | .ok rw =>
    match rule rw.1 with
    | some e =>
      let u := r.1.UnreadRune
      match u.2 with
      | .ok _ => (u.1, .error ((appendErr (some e) none).getD e))
      | .error ue => (u.1, .error ((appendErr (some e) (some ue)).getD e))
    | none => (r.1, .ok rw.1)

/-- `Return(v)` (pair.go): always succeeds with `v`, touching nothing. -/
def returnP {A : Type} (v : A) : Parser A := fun s => (s, .ok v)

/-- `Try(p)` (pair.go): checkpoints `pos`; on failure of `p`, restores `pos`
    only (the width history and line counter keep `p`'s mutations). -/
def tryP {A : Type} (p : Parser A) : Parser A := fun s =>
  let r := p s
  match r.2 with
  | .error e => ({ r.1 with pos := s.pos }, .error e)
  | .ok v => (r.1, .ok v)

/-- `Bind(p, f)` (pair.go): runs `p`, then the parser `f` produces, on the
    same already-advanced scanner. -/
def bindP {A B : Type} (p : Parser A) (f : A → Parser B) : Parser B := fun s =>
  let r := p s
  match r.2 with
  | .error e => (r.1, .error e)
  | .ok v => f v r.1

/-- `DiscardLeft(p, q)` (pair.go). -/
def discardLeft {A B : Type} (p : Parser A) (q : Parser B) : Parser B := fun s =>
  let r := p s
  match r.2 with
  | .error e => (r.1, .error e)
  | .ok _ => q r.1

/-- `Name(name, p)` (pair.go): wraps a failure as
    `fmt.Errorf("%s failed: %w", name, err)`. -/
def nameP {A : Type} (label : String) (p : Parser A) : Parser A := fun s =>
  let r := p s
  match r.2 with
  | .error e => (r.1, .error (.wrapErr (label ++ " failed") (some e)))
  | .ok v => (r.1, .ok v)

/-- `Lift2(f, p1, p2)` (combinators.go revision where the lifted function is
    not fallible): runs `p1` then `p2`, applies `f` to both results. -/
def lift2 {A B C : Type} (f : A → B → C) (p1 : Parser A) (p2 : Parser B) :
    Parser C := fun s =>
  let r1 := p1 s
  match r1.2 with
  | .error e => (r1.1, .error e)
  | .ok a =>
    let r2 := p2 r1.1
    match r2.2 with
    | .error e => (r2.1, .error e)
    | .ok b => (r2.1, .ok (f a b))

/-- `Rune(r)` (text.go): reads one rune; if it differs from the target, the
    rune is unread and the parser fails; `Name` wraps the failure. -/
def runeP (target : Nat) : Parser Nat :=
  nameP "Match Rune" (fun s =>
    let r := s.ReadRune
    match r.2 with
    | .error e => (r.1, .error e)
    | .ok rw =>
      if rw.1 ≠ target then
        let u := r.1.UnreadRune
        (u.1, .error (.msg "does not match target"))
      else (r.1, .ok rw.1))

/-- `Satisfy(f)` (text.go): reads one rune; if the predicate rejects it, the
    rune is unread and the parser fails. -/
def satisfy (f : Nat → Bool) : Parser Nat := fun s =>
  let r := s.ReadRune
  match r.2 with
  | .error e => (r.1, .error e)
  | .ok rw =>
    if ¬ f rw.1 then
      let u := r.1.UnreadRune
      (u.1, .error (.msg "does not satisfy predicate"))
    else (r.1, .ok rw.1)

/-- `Or(p, q)` (alternatives.go, committed-choice revision): remembers the
    start position, runs `p`; on success returns; on failure with the
    position moved, propagates `p`'s error without running `q`; otherwise
    runs `q` from the current state, combining both errors if `q` also
    fails. -/
def orC {A : Type} (p q : Parser A) : Parser A := fun s =>
  let start := s.pos
  let r1 := p s
  match r1.2 with
  | .ok v => (r1.1, .ok v)
  | .error e1 =>
    if r1.1.pos ≠ start then (r1.1, .error e1)
    else
      let r2 := q r1.1
      match r2.2 with
      | .error e2 => (r2.1, .error (combineErr e1 e2))
      | .ok v => (r2.1, .ok v)

/-- The loop body of `Choice` (alternatives.go, committed-choice revision):
    try each parser in turn, accumulating errors with `multierr.Append`, and
    stop early when a failing branch moved the position. -/
def choiceGo {A : Type} (msg : String) (start : Nat) :
    List (Parser A) → Option GoError → Parser A
  | [], errs => fun s => (s, .error (.wrapErr ("expected " ++ msg) errs))
  | p :: ps, errs => fun s =>
    let r := p s
    match r.2 with
    | .ok v => (r.1, .ok v)
    | .error e =>
      if r.1.pos ≠ start then
        (r.1, .error (.wrapErr ("expected " ++ msg) (appendErr errs (some e))))
      else choiceGo msg start ps (appendErr errs (some e)) r.1

/-- `Choice(msg, ps...)` (alternatives.go, committed-choice revision). -/
def choiceC {A : Type} (msg : String) (ps : List (Parser A)) : Parser A :=
  fun s => choiceGo msg s.pos ps none s

/-- `Or(p, q)` (alternatives.go, unconditional-backtracking revision): the
    whole alternative is wrapped in `Try`, `p` is run under its own `Try`,
    and `q` always runs after a `p` failure. -/
def orTry {A : Type} (p q : Parser A) : Parser A :=
  tryP (fun s =>
    let r1 := tryP p s
    match r1.2 with
    | .ok v => (r1.1, .ok v)
    | .error e1 =>
      let r2 := q r1.1
      match r2.2 with
      | .error e2 => (r2.1, .error (combineErr e1 e2))
      | .ok v => (r2.1, .ok v))

/-- The loop of the unconditional-backtracking `Choice`: run each parser
    under `Try`, return the first success, and drop every branch error. -/
def choiceTryGo {A : Type} (msg : String) : List (Parser A) → Parser A
  | [] => fun s => (s, .error (.msg msg))
  | p :: ps => fun s =>
    let r := tryP p s
    match r.2 with
    | .ok v => (r.1, .ok v)
    | .error _ => choiceTryGo msg ps r.1

/-- `Choice(msg, ps...)` (alternatives.go, unconditional-backtracking
    revision): on total failure the reported error is `errors.New(msg)`
    alone; the branch errors are discarded. -/
def choiceTry {A : Type} (msg : String) (ps : List (Parser A)) : Parser A :=
  tryP (choiceTryGo msg ps)

/-- `Many(p)` (combinators.go): repeatedly runs `Try(p)`, accumulating the
    results, and returns them without an error as soon as an attempt fails.
    The Go loop is unbounded; the embedding takes fuel and reports
    `fuelOut` if the loop has not finished within it. -/
def manyF {A : Type} : Nat → Parser A → Parser (List A)
  | 0, _ => fun s => (s, .error .fuelOut)
  | n + 1, p => fun s =>
    let r := tryP p s
    match r.2 with
    | .error _ => (r.1, .ok [])
    | .ok v =>
      let rest := manyF n p r.1
      match rest.2 with
      | .error e => (rest.1, .error e)
      | .ok vs => (rest.1, .ok (v :: vs))

/-- `prepend` (combinators.go). -/
def prepend {A : Type} (first : A) (rest : List A) : List A := first :: rest

/-- `SepBy(s, p)` (combinators.go):
    `Or(Lift2(prepend, p, Many(DiscardLeft(s, p))), Return([]))`, with the
    committed-choice `Or` in scope. -/
def sepByF {A B : Type} (fuel : Nat) (sep : Parser A) (p : Parser B) :
    Parser (List B) :=
  orC (lift2 prepend p (manyF fuel (discardLeft sep p))) (returnP [])

/-- The recursive `chain` closure of `ChainL1` (combinators.go):
    `chain(acc) = Or(Try(Lift2(fun f x => f acc x, op, Bind(p, chain))), Return(acc))`,
    with fuel for the recursion. -/
def chainAux {A : Type} (p : Parser A) (op : Parser (A → A → A)) :
    Nat → A → Parser A
  | 0, _ => fun s => (s, .error .fuelOut)
  | n + 1, acc =>
    orC
      (tryP (lift2 (fun f x => f acc x) op (bindP p (fun v => chainAux p op n v))))
      (returnP acc)

/-- `ChainL1(p, op)` (combinators.go): `Bind(p, chain)` with the recursive
    `chain` above. -/
def chainL1F {A : Type} (fuel : Nat) (p : Parser A) (op : Parser (A → A → A)) :
    Parser A :=
  bindP p (fun v => chainAux p op fuel v)

end Avram

namespace Avramx

open Avram (GoError combineErr)

/-- The avramx `Scanner[T]` (avramx/scanner.go): a buffered cursor over a
    pull-based `Iterator[T]`.  The iterator is modelled as the list of
    elements it has yet to produce; `buffer` holds everything read from it
    so far and `pos` indexes into the buffer. -/
structure Scanner (T : Type) where
  input : List T
  pos : Nat
  buffer : List T
deriving Repr, DecidableEq

/-- `NewScanner(it)`. -/
def mkScanner {T : Type} (elems : List T) : Scanner T :=
  { input := elems, pos := 0, buffer := [] }

/-- An avramx parser over element type `T`. -/
abbrev Parser (T A : Type) := Scanner T → Scanner T × Except GoError A

/-- `Scanner.Read` (avramx/scanner.go): if `pos` is past the buffer, pull one
    element from the iterator into the buffer (returning `io.EOF` if it is
    exhausted); then return `buffer[pos]` and advance `pos`. -/
def Scanner.Read {T : Type} (s : Scanner T) : Scanner T × Except GoError T :=
  if h : s.pos < s.buffer.length then
    ({ s with pos := s.pos + 1 }, .ok (s.buffer.get ⟨s.pos, h⟩))
  else
    match s.input with
    | [] => (s, .error .eof)
    | x :: rest =>
      ({ input := rest, pos := s.pos + 1, buffer := s.buffer ++ [x] },
        .ok ((s.buffer ++ [x]).getD s.pos x))

/-- `Match(rule)` (avramx/parser.go): reads one element and applies the rule;
    on rejection the parser fails with the rule's error.  (The element is not
    unread: the scanner keeps the advanced position.) -/
def matchP {T : Type} (rule : T → Option GoError) : Parser T T := fun s =>
  let r := s.Read
  match r.2 with
  | .error e => (r.1, .error e)
  | .ok got =>
    match rule got with
    | some e => (r.1, .error e)
    | none => (r.1, .ok got)

/-- `Return(v)` (avramx/parser.go). -/
def returnP {T A : Type} (v : A) : Parser T A := fun s => (s, .ok v)

/-- `Bind(p, f)` (avramx/parser.go). -/
def bindP {T A B : Type} (p : Parser T A) (f : A → Parser T B) : Parser T B :=
  fun s =>
    let r := p s
    match r.2 with
    | .error e => (r.1, .error e)
    | .ok v => f v r.1

/-- `DiscardLeft(p, q)` (avramx/parser.go). -/
def discardLeft {T A B : Type} (p : Parser T A) (q : Parser T B) : Parser T B :=
  fun s =>
    let r := p s
    match r.2 with
    | .error e => (r.1, .error e)
    | .ok _ => q r.1

/-- `Lift2(f, p1, p2)` (avramx/combinators.go): the lifted function is
    fallible. -/
def lift2 {T A B C : Type} (f : A → B → Except GoError C)
    (p1 : Parser T A) (p2 : Parser T B) : Parser T C := fun s =>
  let r1 := p1 s
  match r1.2 with
  | .error e => (r1.1, .error e)
  | .ok a =>
    let r2 := p2 r1.1
    match r2.2 with
    | .error e => (r2.1, .error e)
    | .ok b =>
      match f a b with
      | .error e => (r2.1, .error e)
      | .ok c => (r2.1, .ok c)

/-- `Both(p, q)` (avramx/combinators.go): the `Pair` becomes a product. -/
def both {T A B : Type} (p : Parser T A) (q : Parser T B) : Parser T (A × B) :=
  lift2 (fun a b => .ok (a, b)) p q

/-- `Or(p, q)` (avramx/alternatives.go): on any failure of `p` the position
    is reset to the start and `q` is run; if both fail, their errors are
    combined. -/
def orP {T A : Type} (p q : Parser T A) : Parser T A := fun s =>
  let start := s.pos
  let r1 := p s
  match r1.2 with
  | .ok v => (r1.1, .ok v)
  | .error e1 =>
    let r2 := q { r1.1 with pos := start }
    match r2.2 with
    | .error e2 => (r2.1, .error (combineErr e1 e2))
    | .ok v => (r2.1, .ok v)

/-- The `for` loop of `ChainL1` (avramx/combinators.go): checkpoint, attempt
    `next = Both(op, p)`; on failure restore the checkpoint and return the
    accumulated value; on success fold the operator into the accumulator,
    left to right.  Fuel bounds the unbounded Go loop. -/
def chainLoop {T A : Type} (next : Parser T ((A → A → A) × A)) :
    Nat → A → Parser T A
  | 0, _ => fun s => (s, .error .fuelOut)
  | n + 1, value => fun s =>
    let checkpoint := s.pos
    let r := next s
    match r.2 with
    | .error _ => ({ r.1 with pos := checkpoint }, .ok value)
    | .ok x => chainLoop next n (x.1 value x.2) r.1

/-- `ChainL1(p, op)` (avramx/combinators.go): one `p`, then the iterative
    left fold above. -/
def chainL1 {T A : Type} (fuel : Nat) (p : Parser T A)
    (op : Parser T (A → A → A)) : Parser T A := fun s =>
  let r := p s
  match r.2 with
  | .error e => (r.1, .error e)
  | .ok v => chainLoop (both op p) fuel v r.1

/-- The recursive `chain` closure of `ChainR1` (avramx/combinators.go):
    `chain(acc) = Or(Lift2(fun f x => f acc x, op, Bind(p, chain)), Return(acc))`. -/
def chainAuxR {T A : Type} (p : Parser T A) (op : Parser T (A → A → A)) :
    Nat → A → Parser T A
  | 0, _ => fun s => (s, .error .fuelOut)
  | n + 1, acc =>
    orP
      (lift2 (fun f x => .ok (f acc x)) op (bindP p (fun v => chainAuxR p op n v)))
      (returnP acc)

/-- `ChainR1(p, op)` (avramx/combinators.go). -/
def chainR1 {T A : Type} (fuel : Nat) (p : Parser T A)
    (op : Parser T (A → A → A)) : Parser T A :=
  bindP p (fun v => chainAuxR p op fuel v)

end Avramx

namespace Lex

open Avram (decodeRune newlineRune)

/-- `lex.Token[T]` (avramx/lex/lexer.go): the tag, the matched body text
    (as bytes), and the line / start offset / span position data. -/
structure Token (T : Type) where
  ttype : T
  body : List Nat
  line : Nat
  start : Nat
  span : Nat
deriving Repr, DecidableEq

/-- `lex.Lexer[T]` (avramx/lex/lexer.go).  The token channel becomes the list
    `tokens` of tokens emitted so far, in order.  `covered` is a ghost field
    recording, in input order, the bytes of every span an `Emit` or `Drop`
    consumed; it exists only to state the reconstruction property and is
    touched by no operation other than `Emit` and `Drop`. -/
structure Lexer (T : Type) where
  input : List Nat
  start : Nat
  pos : Nat
  width : List Nat
  line : Nat
  tokens : List (Token T)
  covered : List Nat
deriving Repr, DecidableEq

/-- `NewLexer`: starts at line 1 with everything else empty. -/
def mkLexer {T : Type} (input : List Nat) : Lexer T :=
  { input := input, start := 0, pos := 0, width := [], line := 1,
    tokens := [], covered := [] }

/-- The `EOF` pseudo rune (-1), distinct from any valid code point. -/
def lexEOF : Int := -1

/-- `Lexer.Read`: at end of input clears the width history and returns `EOF`;
    otherwise decodes one rune, extends the width history, advances `pos`,
    and bumps `line` on a newline. -/
def Lexer.Read {T : Type} (l : Lexer T) : Lexer T × Int :=
  if l.input.length ≤ l.pos then
    ({ l with width := [] }, lexEOF)
  else
    let rw := decodeRune (l.input.drop l.pos)
    ({ l with
        width := l.width ++ [rw.2]
        pos := l.pos + rw.2
        line := if rw.1 = newlineRune then l.line + 1 else l.line },
      (rw.1 : Int))

/-- `Lexer.Backup`: a no-op when the width history is empty (Go checks
    `l.width == nil`; history only ever becomes empty here via the `nil`
    assignment in `Read` at end of input, which this check models); otherwise
    pops the most recent width, moves `pos` back by it, and decrements `line`
    when the backed-up byte is a newline. -/
def Lexer.Backup {T : Type} (l : Lexer T) : Lexer T :=
  match l.width.getLast? with
  | none => l
  | some w =>
    let pos' := l.pos - w
    { l with
        width := l.width.dropLast
        pos := pos'
        line := if w = 1 ∧ l.input.getD pos' 0 = newlineRune then l.line - 1 else l.line }

/-- `Lexer.Body`: the text between `start` and `pos`. -/
def Lexer.Body {T : Type} (l : Lexer T) : List Nat :=
  (l.input.take l.pos).drop l.start

/-- `Lexer.Emit(ttype)`: publishes the token covering `[start, pos)` (body,
    current line, start offset, span length) and resets `start` to `pos`. -/
def Lexer.Emit {T : Type} (l : Lexer T) (ttype : T) : Lexer T :=
  let body := (l.input.take l.pos).drop l.start
  { l with
      tokens := l.tokens ++ [⟨ttype, body, l.line, l.start, l.pos - l.start⟩]
      covered := l.covered ++ body
      start := l.pos }

/-- `Lexer.Drop`: discards `[start, pos)` by resetting `start` to `pos`
    (recorded in the ghost `covered`). -/
def Lexer.Drop {T : Type} (l : Lexer T) : Lexer T :=
  let body := (l.input.take l.pos).drop l.start
  { l with
      covered := l.covered ++ body
      start := l.pos }

/-- One primitive lexer interaction.  A state function can touch the lexer
    only through `Read`, `Backup` (`Peek` is `Read` then `Backup`), `Emit`
    and `Drop`, so every run of every state function is some list of these. -/
inductive LexOp (T : Type) where
  | read : LexOp T
  | backup : LexOp T
  | emit (ttype : T) : LexOp T
  | drop : LexOp T
deriving Repr, DecidableEq

/-- Apply one primitive operation (the rune `Read` returns is the state
    function's business; the lexer state does not depend on it). -/
def step {T : Type} (l : Lexer T) : LexOp T → Lexer T
  | .read => (l.Read).1
  | .backup => l.Backup
  | .emit t => l.Emit t
  | .drop => l.Drop

/-- Run a list of primitive operations left to right. -/
def runOps {T : Type} (l : Lexer T) : List (LexOp T) → Lexer T
  | [] => l
  | op :: ops => runOps (step l op) ops

/-- The lexer position invariant: `start ≤ pos ≤ len(input)` (with Nat,
    `0 ≤ start` is automatic). -/
def lexInv {T : Type} (l : Lexer T) : Prop :=
  l.start ≤ l.pos ∧ l.pos ≤ l.input.length

/-- A `Backup` is safe when it undoes a `Read` made since the last
    `Emit`/`Drop` boundary: either the width history is empty (so `Backup` is
    a no-op) or popping the most recent width keeps `pos` at or after
    `start`.  Every other operation is unconditionally safe. -/
def safeOp {T : Type} (l : Lexer T) : LexOp T → Bool
  | .backup =>
    match l.width.getLast? with
    | none => true
    | some w => decide (l.start + w ≤ l.pos)
  | _ => true

/-- All operations of a run are safe in the states they execute in. -/
def safeOps {T : Type} (l : Lexer T) : List (LexOp T) → Bool
  | [] => true
  | op :: ops => safeOp l op && safeOps (step l op) ops

/-- The byte span `[a, b)` of a byte list. -/
def byteSpan (xs : List Nat) (a b : Nat) : List Nat :=
  (xs.take b).drop a

end Lex

namespace Avram

/-- The states and values of a terminating run of `Many(p)`'s loop from `s`:
    `ManyRun p s vs sf` holds when consecutive applications of `p` starting
    at `s` succeed with the values `vs` in order and the attempt after the
    last success fails, leaving (via `Try`) the failing attempt's scanner
    with its position restored to the position after the last success. -/
inductive ManyRun {A : Type} (p : Parser A) : Scanner → List A → Scanner → Prop
  | done {s sf : Scanner} {e : GoError} :
      p s = (sf, .error e) → ManyRun p s [] { sf with pos := s.pos }
  | step {s s1 sf : Scanner} {v : A} {vs : List A} :
      p s = (s1, .ok v) → ManyRun p s1 vs sf → ManyRun p s (v :: vs) sf

/-- Every branch of a `Choice` fails in turn without moving the position:
    `FailsAll ps s es sf` holds when running `p1, p2, ...` sequentially from
    `s` fails with the errors `es` in order, each failure leaving the
    position where it was, ending in state `sf`. -/
inductive FailsAll {A : Type} : List (Parser A) → Scanner → List GoError → Scanner → Prop
  | nil (s : Scanner) : FailsAll [] s [] s
  | cons {p : Parser A} {ps : List (Parser A)} {s s1 sf : Scanner}
      {e : GoError} {es : List GoError} :
      p s = (s1, .error e) → s1.pos = s.pos →
      FailsAll ps s1 es sf → FailsAll (p :: ps) s (e :: es) sf

/-- The single-digit integer parser of `TestChainL1`/`TestChainR1`
    (combinators_test.go), built from the library's own primitives
    (`Satisfy` on the digit range, then `Bind`/`Return` to its value);
    every integer of the test inputs is one digit. -/
def digitP : Parser Nat :=
  bindP (satisfy (fun c => 48 ≤ c && c ≤ 57)) (fun c => returnP (c - 48))

/-- The operator parser of `TestChainL1`/`TestChainR1` (combinators_test.go):
    `Or(Try(DiscardLeft(Rune('+'), Return(add))), DiscardLeft(Rune('*'), Return(mul)))`. -/
def opP : Parser (Nat → Nat → Nat) :=
  orC (tryP (discardLeft (runeP 43) (returnP (fun a b => a + b))))
      (discardLeft (runeP 42) (returnP (fun a b => a * b)))

/-- A parser that consumes `'a'` and then requires `'b'`
    (`Bind(Rune('a'), fun _ => Rune('b'))`): on `"ax"` it fails after having
    consumed one rune. -/
def pAB : Parser Nat := bindP (runeP 97) (fun _ => runeP 98)

/-- A rule rejecting every element, with a fixed error. -/
def rejectAll {T : Type} : T → Option GoError := fun _ => some (.msg "reject")

/-- A parser that reads one newline rune and then fails. -/
def nlThenFail : Parser Unit :=
  bindP (satisfy (fun c => c = 10)) (fun _ => fun s => (s, .error (.msg "boom")))

end Avram

namespace Avramx

/-- The single-digit integer parser over rune tokens, from avramx's own
    primitives (`Match` on the digit range, then `Bind`/`Return`). -/
def adigitP : Parser Nat Nat :=
  bindP (matchP (fun c => if 48 ≤ c && c ≤ 57 then none else some (.msg "not digit")))
    (fun c => returnP (c - 48))

/-- The `+`/`*` operator parser over rune tokens:
    `Or(DiscardLeft(Match('+'), Return(add)), DiscardLeft(Match('*'), Return(mul)))`. -/
def aopP : Parser Nat (Nat → Nat → Nat) :=
  orP
    (discardLeft (matchP (fun c => if c = 43 then none else some (.msg "not plus")))
      (returnP (fun a b => a + b)))
    (discardLeft (matchP (fun c => if c = 42 then none else some (.msg "not star")))
      (returnP (fun a b => a * b)))

end Avramx


namespace Avram

/-- Concrete scanner state: `"ab"` fully read (two one-byte widths). -/
def scanAB2 : Scanner :=
  { input := [97, 98], start := 0, pos := 2, width := [1, 1], line := 0 }

/-- `scanAB2` with the width history cleared. -/
def scanAB2c : Scanner :=
  { input := [97, 98], start := 0, pos := 2, width := [], line := 0 }

/-- Concrete scanner state: the newline of `"\n"` read. -/
def scanNL1 : Scanner :=
  { input := [10], start := 0, pos := 1, width := [1], line := 1 }

/-- The failure `Rune(target)` produces on a mismatch (`Name`-wrapped). -/
def eMR : GoError := .wrapErr "Match Rune failed" (some (.msg "does not match target"))

/-- Concrete scanner state: `'a'` of `"ax"` read. -/
def scanAX1 : Scanner :=
  { input := [97, 120], start := 0, pos := 1, width := [1], line := 0 }

end Avram

namespace Lex

/-- Concrete lexer state: `"ab"` fully read (two one-byte widths). -/
def lexAB2 : Lexer Unit :=
  { input := [97, 98], start := 0, pos := 2, width := [1, 1], line := 1,
    tokens := [], covered := [] }

/-- `lexAB2` with the width history cleared. -/
def lexAB2c : Lexer Unit :=
  { input := [97, 98], start := 0, pos := 2, width := [], line := 1,
    tokens := [], covered := [] }

/-- Concrete lexer state: the newline of `"\n"` read (lexers start at
    line 1). -/
def lexNL1 : Lexer Unit :=
  { input := [10], start := 0, pos := 1, width := [1], line := 2,
    tokens := [], covered := [] }

end Lex

open Avram Avramx Lex in
/-- Claim C1.  The avram `ChainL1` (combinators.go) is documented, specified
    and tested (`TestChainL1`) as the left-associative fold, which on
    `"1+2*3+4"` is `((1+2)*3)+4 = 13`; but its `chain` closure computes
    `f acc (fold of the rest)` — the right-associative fold — so it actually
    returns `1+(2*(3+4)) = 15`, contradicting its own doc comment and test.
    The avramx `ChainL1` (an iterative left fold, also cited by the claim)
    does return `13`, and `ChainR1` returns `15` as the claim states. -/
theorem chainL1_mixed_input_eval :
    (Avram.chainL1F 10 Avram.digitP Avram.opP (Avram.mkScanner "1+2*3+4")).2
        = Except.ok 15
    ∧ (Avramx.chainL1 10 Avramx.adigitP Avramx.aopP
        (Avramx.mkScanner (Avram.strBytes "1+2*3+4"))).2 = Except.ok 13
    ∧ (Avramx.chainR1 10 Avramx.adigitP Avramx.aopP
        (Avramx.mkScanner (Avram.strBytes "1+2*3+4"))).2 = Except.ok 15 :=
  ⟨rfl, rfl, rfl⟩

open Avram in
/-- Claim C10.  `Try(p)` (pair.go) checkpoints and restores only the `pos`
    field of the scanner: when `p` fails, the returned scanner is `p`'s
    mutated scanner with `pos` reset to its pre-call value, while the line
    counter and the width history keep whatever mutations `p` made. -/
theorem try_restores_only_pos {A : Type} (p : Parser A) (s s1 : Scanner)
    (e : GoError) (h : p s = (s1, .error e)) :
    tryP p s = ({ s1 with pos := s.pos }, .error e)
    ∧ (tryP p s).1.line = s1.line ∧ (tryP p s).1.width = s1.width := by
  have main : tryP p s = ({ s1 with pos := s.pos }, .error e) := by
    unfold tryP
    rw [h]
  exact ⟨main, by rw [main], by rw [main]⟩

open Avram in
/-- Claim C10 witness: a parser that reads the newline of `"\n"` (leaving
    `line = 1`, `width = [1]`, `pos = 1`) and then fails; `Try` hands back
    `pos = 0` but keeps `line = 1` and `width = [1]`. -/
theorem try_restores_only_pos_witness :
    tryP nlThenFail (mkScanner "\n")
        = ({ scanNL1 with pos := 0 }, .error (.msg "boom"))
    ∧ (tryP nlThenFail (mkScanner "\n")).1.line = scanNL1.line
    ∧ (tryP nlThenFail (mkScanner "\n")).1.width = scanNL1.width :=
  try_restores_only_pos nlThenFail (mkScanner "\n") scanNL1 (.msg "boom") rfl

open Avram Lex in
/-- Claim C9.  A read attempted at end of input clears the whole width
    history: `Scanner.ReadRune` at `pos ≥ len(input)` sets `width` to nil and
    returns `io.EOF`, after which `Scanner.UnreadRune` fails with
    `"no runes to unread"`; likewise `Lexer.Read` at end of input clears the
    width history and returns the `EOF` pseudo rune, after which
    `Lexer.Backup` is a no-op — regardless of how many runes had been read
    successfully beforehand, so the last pre-EOF read can no longer be
    undone. -/
theorem eof_read_clears_width {T : Type} (s : Scanner) (l : Lexer T)
    (hs : s.input.length ≤ s.pos) (hl : l.input.length ≤ l.pos) :
    s.ReadRune = ({ s with width := [] }, .error .eof)
    ∧ Scanner.UnreadRune { s with width := [] }
        = ({ s with width := [] }, .error (.msg "no runes to unread"))
    ∧ Lexer.Read l = ({ l with width := [] }, lexEOF)
    ∧ Lexer.Backup { l with width := [] } = { l with width := [] } := by
  refine ⟨?_, rfl, ?_, rfl⟩
  · unfold Scanner.ReadRune
    rw [if_pos hs]
  · unfold Lexer.Read
    rw [if_pos hl]

open Avram Lex in
/-- Claim C9 witness: after two successful reads on `"ab"` (width history
    `[1, 1]`, `pos = 2`), the read at end of input wipes the history, the
    unread fails, and the lexer counterpart's `Backup` is a no-op. -/
theorem eof_read_clears_width_witness :
    Scanner.ReadRune scanAB2 = (scanAB2c, .error .eof)
    ∧ Scanner.UnreadRune scanAB2c
        = (scanAB2c, .error (.msg "no runes to unread"))
    ∧ Lexer.Read lexAB2 = (lexAB2c, lexEOF)
    ∧ Lexer.Backup lexAB2c = lexAB2c :=
  eof_read_clears_width scanAB2 lexAB2 (by decide) (by decide)

open Avramx in
/-- Claim C3 counterexample.  avramx's `Match` (avramx/parser.go, cited by
    the claim as the generic single-element match parser) reads one element,
    and when the rule rejects it the parser fails with the element still
    consumed: on the one-element input `[97]` with an always-rejecting rule
    the final scanner position is `1`, not the claimed net-zero `0`. -/
theorem avx_match_keeps_consumption_cex :
    Avramx.matchP Avram.rejectAll (Avramx.mkScanner [97])
        = ({ input := [], pos := 1, buffer := [97] }, .error (.msg "reject"))
    ∧ (Avramx.matchP Avram.rejectAll (Avramx.mkScanner [97])).1.pos ≠ 0 :=
  ⟨rfl, by decide⟩

open Avram in
/-- Claim C3 (amended).  The avram `Scanner.MatchRune` (scanner.go) does
    satisfy the claim: when the rule rejects the rune it just read, the rune
    is unread, so the parser fails with the rule's error and the cursor
    position afterwards equals the position before the call (net consumption
    zero). -/
theorem matchRune_net_zero (rule : Nat → Option GoError) (s s1 : Scanner)
    (r w : Nat) (e : GoError)
    (hr : s.ReadRune = (s1, .ok (r, w))) (hrej : rule r = some e) :
    (Scanner.MatchRune rule s).1.pos = s.pos
    ∧ (Scanner.MatchRune rule s).2 = .error e := by
  have hle : ¬ s.input.length ≤ s.pos := by
    intro hle
    unfold Scanner.ReadRune at hr
    rw [if_pos hle] at hr
    simp at hr
  have hr' := hr
  unfold Scanner.ReadRune at hr'
  rw [if_neg hle] at hr'
  rw [Prod.mk.injEq] at hr'
  obtain ⟨hs1, hok⟩ := hr'
  rw [Except.ok.injEq] at hok
  unfold Scanner.MatchRune
  rw [hr]
  simp only [hrej]
  rw [← hs1]
  simp only [Scanner.UnreadRune, List.length_append, List.length_cons,
    List.length_nil, List.getLastD_concat, List.dropLast_concat]
  rw [if_neg (by omega)]
  simp [appendErr, hok]

open Avram in
/-- Claim C3 witness: `MatchRune` with an always-rejecting rule on `"a"`
    reads the rune, unreads it, and fails with the rule's error; the
    position is back at 0. -/
theorem matchRune_net_zero_witness :
    (Scanner.MatchRune rejectAll (mkScanner "a")).1.pos = 0
    ∧ (Scanner.MatchRune rejectAll (mkScanner "a")).2
        = .error (.msg "reject") :=
  matchRune_net_zero rejectAll (mkScanner "a")
    { input := [97], start := 0, pos := 1, width := [1], line := 0 }
    97 1 (.msg "reject") rfl rfl

open Avram in
/-- Claim C2.  The committed-choice `Or` (alternatives.go, committed
    revision): when `p` fails after moving the position, the failure is
    propagated with `q` never invoked and the scanner left at `p`'s partial
    position; when `p` fails without consuming, `q` runs from that position;
    and when `p` is wrapped in `Try`, `q` runs from the restored pre-`p`
    position even if `p` had consumed. -/
theorem orC_committed_spec {A : Type} (p : Parser A) (s s1 : Scanner)
    (e1 : GoError) (h : p s = (s1, .error e1)) :
    (s1.pos ≠ s.pos → ∀ q : Parser A, orC p q s = (s1, .error e1))
    ∧ (s1.pos = s.pos → ∀ q : Parser A, orC p q s
        = ((q s1).1, match (q s1).2 with
            | .ok v => .ok v
            | .error e2 => .error (combineErr e1 e2)))
    ∧ (∀ q : Parser A, orC (tryP p) q s
        = ((q { s1 with pos := s.pos }).1,
          match (q { s1 with pos := s.pos }).2 with
          | .ok v => .ok v
          | .error e2 => .error (combineErr e1 e2))) := by
  have ht : tryP p s = ({ s1 with pos := s.pos }, .error e1) := by
    unfold tryP
    rw [h]
  refine ⟨?_, ?_, ?_⟩
  · intro hne q
    unfold orC
    rw [h]
    simp only [if_pos hne]
  · intro heq q
    unfold orC
    rw [h]
    simp only [if_neg (show ¬ s1.pos ≠ s.pos from by simp [heq])]
    rcases hq : q s1 with ⟨s2, r2⟩
    cases r2 <;> simp [hq]
  · intro q
    unfold orC
    rw [ht]
    simp only [if_neg (show ¬ (Scanner.pos { s1 with pos := s.pos } ≠ s.pos) from by simp)]
    rcases hq : q { s1 with pos := s.pos } with ⟨s2, r2⟩
    cases r2 <;> simp [hq]

open Avram in
/-- Claim C2 witness, instantiating all three parts.  `pAB` consumes `'a'`
    of `"ax"` then fails: the committed `Or` propagates without running `q`
    and leaves `pos = 1`.  `Rune('b')` fails on `"ax"` without consuming:
    `q = Rune('a')` runs from the original position and succeeds.  With
    `Try(pAB)`, `q` runs from the restored position and succeeds. -/
theorem orC_committed_spec_witness :
    orC pAB (runeP 97) (mkScanner "ax") = (scanAX1, .error eMR)
    ∧ orC (runeP 98) (runeP 97) (mkScanner "ax") = (scanAX1, .ok 97)
    ∧ orC (tryP pAB) (runeP 97) (mkScanner "ax")
        = ({ scanAX1 with width := [1, 1] }, .ok 97) :=
  ⟨(orC_committed_spec pAB (mkScanner "ax") scanAX1 eMR rfl).1 (by decide)
      (runeP 97),
    (orC_committed_spec (runeP 98) (mkScanner "ax") (mkScanner "ax") eMR rfl).2.1
      rfl (runeP 97),
    (orC_committed_spec pAB (mkScanner "ax") scanAX1 eMR rfl).2.2 (runeP 97)⟩

open Avram in
/-- Claim C4 counterexample.  The unconditional-backtracking revision of
    `Choice` (src/alternatives.go, cited by the claim) reports only
    `errors.New(msg)` when every branch fails: on `"c"` with branches
    `Rune('a')`, `Rune('b')` the error is the bare `"letter"` message — not
    `"expected letter"`, and carrying none of the branch errors (its
    `multierr.Errors` list is just itself), although each branch did fail
    with its own underlying error. -/
theorem choiceTry_discards_errors_cex :
    choiceTry "letter" [runeP 97, runeP 98] (mkScanner "c")
        = (mkScanner "c", .error (.msg "letter"))
    ∧ (runeP 97 (mkScanner "c")).2 = .error eMR
    ∧ GoError.leaves (.msg "letter") = [.msg "letter"] :=
  ⟨rfl, rfl, rfl⟩

open Avram in
/-- The leaves of a combined error with at least two members are its member
    list. -/
theorem mkMulti_leaves_of_two {L : List GoError} (h2 : 2 ≤ L.length) :
    (mkMulti L).leaves = L := by
  match L with
  | [] => simp at h2
  | [x] => simp at h2
  | a :: b :: rest => rfl

open Avram in
/-- Folding `multierr.Append` over branch errors starting from a non-empty
    accumulated error yields an error whose `multierr.Errors` list is the
    concatenation of all their leaves. -/
theorem errsFold_leaves (es : List GoError) (E0 : GoError)
    (h0 : E0.leaves ≠ []) (hl : ∀ e ∈ es, e.leaves ≠ []) :
    ∃ E, es.foldl (fun a e => appendErr a (some e)) (some E0) = some E
      ∧ E.leaves = E0.leaves ++ es.flatMap GoError.leaves ∧ E.leaves ≠ [] := by
  induction es generalizing E0 with
  | nil => exact ⟨E0, rfl, by simp, h0⟩
  | cons e es ih =>
    have he : e.leaves ≠ [] := hl e (List.mem_cons_self e es)
    have h2 : 2 ≤ (E0.leaves ++ e.leaves).length := by
      rcases List.exists_cons_of_ne_nil h0 with ⟨x, xs, hx⟩
      rcases List.exists_cons_of_ne_nil he with ⟨y, ys, hy⟩
      simp [hx, hy]
      omega
    have hm : (mkMulti (E0.leaves ++ e.leaves)).leaves = E0.leaves ++ e.leaves :=
      mkMulti_leaves_of_two h2
    obtain ⟨E, hfold, hleaves, hne⟩ :=
      ih (mkMulti (E0.leaves ++ e.leaves))
        (by rw [hm]; simp [h0]) (fun x hx => hl x (List.mem_cons_of_mem e hx))
    refine ⟨E, ?_, ?_, hne⟩
    · simpa [appendErr] using hfold
    · rw [hleaves, hm]
      simp

open Avram in
/-- `errsOf` of a non-empty list of branch errors (each with a non-empty
    leaf list) is a single error carrying all their leaves, concatenated. -/
theorem errsOf_leaves (es : List GoError) (hne : es ≠ [])
    (hl : ∀ e ∈ es, e.leaves ≠ []) :
    ∃ E, errsOf es = some E ∧ E.leaves = es.flatMap GoError.leaves := by
  match es with
  | [] => exact absurd rfl hne
  | e0 :: rest =>
    have h0 : e0.leaves ≠ [] := hl e0 (List.mem_cons_self e0 rest)
    obtain ⟨E, hfold, hleaves, _⟩ :=
      errsFold_leaves rest e0 h0 (fun x hx => hl x (List.mem_cons_of_mem e0 hx))
    exact ⟨E, hfold, by rw [hleaves]; simp⟩

open Avram in
/-- The committed `Choice` loop under a `FailsAll` run: every branch fails
    in place, so the loop visits them all and finishes with the label-wrapped
    accumulated error. -/
theorem choiceGo_of_failsAll {A : Type} {msg : String} {ps : List (Parser A)}
    {s sf : Scanner} {es : List GoError} (h : FailsAll ps s es sf)
    (acc : Option GoError) (start : Nat) (hstart : s.pos = start) :
    choiceGo msg start ps acc s
      = (sf, .error (.wrapErr ("expected " ++ msg)
          (es.foldl (fun a e => appendErr a (some e)) acc))) := by
  induction h generalizing acc with
  | nil s => rfl
  | @cons p ps s s1 sf e es hp hpos htail ih =>
    unfold choiceGo
    rw [hp]
    simp only [if_neg (show ¬ s1.pos ≠ start from by rw [hpos, hstart]; simp)]
    exact ih (appendErr acc (some e)) (hpos.trans hstart)

open Avram in
/-- Claim C4.  The committed-choice `Choice(msg, ps...)` (the revision cited
    by the claim that aggregates errors): when every branch fails (each
    failing in place, so all branches are attempted), `Choice` fails with the
    single error `"expected msg"` wrapping the `multierr`-appended branch
    errors, and that aggregate's `multierr.Errors` list is the concatenation
    of every branch's underlying errors — not just the last branch's. -/
theorem choiceC_aggregates {A : Type} (msg : String) (ps : List (Parser A))
    (s sf : Scanner) (es : List GoError) (h : FailsAll ps s es sf)
    (hne : es ≠ []) (hl : ∀ e ∈ es, e.leaves ≠ []) :
    choiceC msg ps s
        = (sf, .error (.wrapErr ("expected " ++ msg) (errsOf es)))
    ∧ ∃ E, errsOf es = some E ∧ E.leaves = es.flatMap GoError.leaves :=
  ⟨choiceGo_of_failsAll h none s.pos rfl, errsOf_leaves es hne hl⟩

open Avram in
/-- Claim C4 witness: both branches `Rune('a')`, `Rune('b')` fail in place
    on `"c"`; the committed `Choice` reports `"expected letter"` wrapping the
    aggregate whose `multierr.Errors` list holds both branch errors. -/
theorem choiceC_aggregates_witness :
    choiceC "letter" [runeP 97, runeP 98] (mkScanner "c")
        = (mkScanner "c",
          .error (.wrapErr ("expected " ++ "letter") (errsOf [eMR, eMR])))
    ∧ ∃ E, errsOf [eMR, eMR] = some E
        ∧ E.leaves = [eMR, eMR].flatMap GoError.leaves :=
  choiceC_aggregates "letter" [runeP 97, runeP 98] (mkScanner "c")
    (mkScanner "c") [eMR, eMR]
    (FailsAll.cons rfl rfl (FailsAll.cons rfl rfl (FailsAll.nil _)))
    (by simp)
    (by
      intro e he
      simp only [List.mem_cons, List.not_mem_nil, or_false] at he
      rcases he with rfl | rfl <;> simp [eMR, GoError.leaves])

open Avram in
/-- `Many`'s loop produces no error of its own: if the fueled embedding
    reports an error at all, it is the fuel marker. -/
theorem manyF_error_fuelOut {A : Type} (p : Parser A) :
    ∀ (n : Nat) (s s' : Scanner) (e : GoError),
      manyF n p s = (s', .error e) → e = .fuelOut := by
  intro n
  induction n with
  | zero =>
    intro s s' e h
    unfold manyF at h
    rw [Prod.mk.injEq] at h
    obtain ⟨-, h2⟩ := h
    exact (Except.error.injEq .. ▸ h2).symm
  | succ n ih =>
    intro s s' e h
    rcases hp : p s with ⟨s1, r1⟩
    cases r1 with
    | error e1 =>
      have htp : tryP p s = ({ s1 with pos := s.pos }, .error e1) := by
        unfold tryP; rw [hp]
      have hm : ({ s1 with pos := s.pos }, (Except.ok [] : Except GoError (List A)))
          = (s', .error e) := by
        rw [← h]
        unfold manyF
        rw [htp]
      rw [Prod.mk.injEq] at hm
      exact absurd hm.2 (by simp)
    | ok v =>
      have htp : tryP p s = (s1, .ok v) := by
        unfold tryP; rw [hp]
      rcases hrest : manyF n p s1 with ⟨s2, r2⟩
      cases r2 with
      | error e2 =>
        have hm : ((s2 : Scanner), (Except.error e2 : Except GoError (List A)))
            = (s', .error e) := by
          rw [← h]
          unfold manyF
          rw [htp]
          simp only [hrest]
        rw [Prod.mk.injEq] at hm
        have he2 := ih s1 s2 e2 hrest
        have : e2 = e := by
          have := hm.2
          rwa [Except.error.injEq] at this
        rw [← this, he2]
      | ok vs =>
        have hm : ((s2 : Scanner), (Except.ok (v :: vs) : Except GoError (List A)))
            = (s', .error e) := by
          rw [← h]
          unfold manyF
          rw [htp]
          simp only [hrest]
        rw [Prod.mk.injEq] at hm
        exact absurd hm.2 (by simp)

open Avram in
/-- Claim C5 counterexample.  `Many(Return(0))` never returns at all: the Go
    loop runs forever because the inner parser always succeeds without
    consuming, so for every iteration budget the embedding still reports the
    non-termination marker; there is no budget under which `Many` returns
    success on the scanner over `"x"`. -/
theorem many_return_diverges_cex :
    ¬ ∃ (n : Nat) (s' : Avram.Scanner) (vs : List Nat),
        manyF n (returnP 0) (mkScanner "x") = (s', .ok vs) := by
  have key : ∀ (n : Nat) (s : Scanner),
      manyF n (returnP (0 : Nat)) s = (s, .error .fuelOut) := by
    intro n
    induction n with
    | zero => intro s; rfl
    | succ n ih =>
      intro s
      unfold manyF
      have htp : tryP (returnP (0 : Nat)) s = (s, .ok 0) := rfl
      rw [htp]
      simp only [ih s]
  rintro ⟨n, s', vs, h⟩
  rw [key n] at h
  rw [Prod.mk.injEq] at h
  exact absurd h.2 (by simp)

open Avram in
/-- Claim C5 (amended).  Whenever `Many(p)`'s loop terminates (the fueled
    embedding returns anything but the fuel marker), the result is a success
    — never an error — and it is a `ManyRun`: the returned values are those
    of the successful consecutive applications of `p` in order, and the
    final scanner is the failing attempt's scanner with its position
    restored to the position reached by the last success (`Try` undoes the
    failing attempt's consumption, so the cursor ends exactly after the
    longest successfully-consumed prefix). -/
theorem manyF_spec {A : Type} (p : Parser A) (n : Nat) (s s' : Scanner)
    (r : Except GoError (List A)) (h : manyF n p s = (s', r))
    (hf : r ≠ .error .fuelOut) :
    ∃ vs, r = .ok vs ∧ ManyRun p s vs s' := by
  induction n generalizing s s' r with
  | zero =>
    unfold manyF at h
    rw [Prod.mk.injEq] at h
    exact absurd h.2.symm hf
  | succ n ih =>
    rcases hp : p s with ⟨s1, r1⟩
    cases r1 with
    | error e1 =>
      have htp : tryP p s = ({ s1 with pos := s.pos }, .error e1) := by
        unfold tryP; rw [hp]
      have hm : ({ s1 with pos := s.pos }, (Except.ok [] : Except GoError (List A)))
          = (s', r) := by
        rw [← h]
        unfold manyF
        rw [htp]
      rw [Prod.mk.injEq] at hm
      exact ⟨[], hm.2.symm, hm.1 ▸ ManyRun.done hp⟩
    | ok v =>
      have htp : tryP p s = (s1, .ok v) := by
        unfold tryP; rw [hp]
      rcases hrest : manyF n p s1 with ⟨s2, r2⟩
      cases r2 with
      | error e2 =>
        have hm : ((s2 : Scanner), (Except.error e2 : Except GoError (List A)))
            = (s', r) := by
          rw [← h]
          unfold manyF
          rw [htp]
          simp only [hrest]
        rw [Prod.mk.injEq] at hm
        have he2 := manyF_error_fuelOut p n s1 s2 e2 hrest
        exact absurd (by rw [← hm.2, he2]) hf
      | ok vs =>
        have hm : ((s2 : Scanner), (Except.ok (v :: vs) : Except GoError (List A)))
            = (s', r) := by
          rw [← h]
          unfold manyF
          rw [htp]
          simp only [hrest]
        rw [Prod.mk.injEq] at hm
        obtain ⟨vs', hr, hrun⟩ := ih s1 s2 (.ok vs) hrest (by simp)
        rw [Except.ok.injEq] at hr
        exact ⟨v :: vs, hm.2.symm, hm.1 ▸ ManyRun.step hp (hr ▸ hrun)⟩

open Avram in
/-- Claim C5 witness: `Many(digit)` on `"12a"` with budget 4 terminates,
    returning `[1, 2]` with the cursor at byte 2, right after the last
    successful digit; the theorem recovers the `ManyRun` trace. -/
theorem manyF_spec_witness :
    ∃ vs, (Except.ok [1, 2] : Except GoError (List Nat)) = .ok vs
      ∧ ManyRun digitP (mkScanner "12a") vs
          { input := [49, 50, 97], start := 0, pos := 2, width := [1, 1], line := 0 } :=
  manyF_spec digitP 4 (mkScanner "12a")
    { input := [49, 50, 97], start := 0, pos := 2, width := [1, 1], line := 0 }
    (.ok [1, 2]) rfl (by simp)

open Avram in
/-- Claim C6 counterexample.  With the committed-choice `Or` (the revision
    cited by the claim), `SepBy` can fail: on `"ax"` with element parser
    `Bind(Rune('a'), fun _ => Rune('b'))` the first element parse consumes
    `'a'` and then fails, so the committed `Or` propagates the failure
    without trying `Return([])` — `SepBy` returns an error, not the empty
    list. -/
theorem sepBy_committed_fails_cex :
    sepByF 5 (runeP 44) pAB (mkScanner "ax") = (scanAX1, .error eMR)
    ∧ ∀ vs : List Nat,
        (sepByF 5 (runeP 44) pAB (mkScanner "ax")).2 ≠ .ok vs := by
  refine ⟨rfl, ?_⟩
  intro vs
  have : (sepByF 5 (runeP 44) pAB (mkScanner "ax")).2 = .error eMR := rfl
  rw [this]
  simp

open Avram in
/-- Claim C6 (amended).  Under the committed-choice `Or`, `SepBy(sep, p)`
    succeeds with the empty list whenever the first element parse fails
    without consuming input (the position is unchanged); when the first
    element parse fails after consuming, the failure propagates instead. -/
theorem sepBy_empty_on_nonconsuming_failure {A B : Type} (fuel : Nat)
    (sep : Parser A) (p : Parser B) (s s1 : Scanner) (e : GoError)
    (h : p s = (s1, .error e)) (hpos : s1.pos = s.pos) :
    sepByF fuel sep p s = (s1, .ok []) := by
  have hb : lift2 prepend p (manyF fuel (discardLeft sep p)) s = (s1, .error e) := by
    unfold lift2
    rw [h]
  unfold sepByF orC
  rw [hb]
  simp only [if_neg (show ¬ s1.pos ≠ s.pos from by simp [hpos])]
  rfl

open Avram in
/-- Claim C6 witness: `Rune('b')` fails on `"ax"` without consuming (it
    unreads the mismatched `'a'`), so `SepBy(Rune(','), Rune('b'))` succeeds
    with the empty list. -/
theorem sepBy_empty_on_nonconsuming_failure_witness :
    sepByF 5 (runeP 44) (runeP 98) (mkScanner "ax")
      = (mkScanner "ax", .ok ([] : List Nat)) :=
  sepBy_empty_on_nonconsuming_failure 5 (runeP 44) (runeP 98)
    (mkScanner "ax") (mkScanner "ax") eMR rfl rfl

open Avram in
/-- `List.getD` at `n` is the head of the `n`-dropped list. -/
theorem getD_headD_drop : ∀ (xs : List Nat) (n : Nat),
    xs.getD n 0 = (xs.drop n).headD 0
  | [], n => by simp
  | x :: xs, 0 => rfl
  | x :: xs, n + 1 => by simp [getD_headD_drop xs n]

open Avram in
/-- A decode yields the newline rune exactly when the leading byte is the
    newline byte: ASCII decodes to itself, invalid sequences decode to
    `RuneError`, and every valid multi-byte sequence decodes to a rune of at
    least `0x80` (Go's lower-bound checks on the second byte rule out
    overlong encodings). -/
theorem decode_newline_iff (b0 : Nat) (rest : List Nat) :
    (decodeRune (b0 :: rest)).1 = newlineRune ↔ b0 = 10 := by
  match rest with
  | [] =>
    simp only [decodeRune, newlineRune]
    split_ifs
    all_goals simp_all [runeError, isCont]
    all_goals omega
  | [b1] =>
    simp only [decodeRune, newlineRune]
    split_ifs
    all_goals simp_all [runeError, isCont]
    all_goals omega
  | [b1, b2] =>
    simp only [decodeRune, newlineRune]
    split_ifs
    all_goals simp_all [runeError, isCont]
    all_goals omega
  | b1 :: b2 :: b3 :: rest3 =>
    simp only [decodeRune, newlineRune]
    split_ifs
    all_goals simp_all [runeError, isCont]
    all_goals omega

open Avram Lex in
/-- `Backup` on a lexer whose width history ends in `w` pops it, moves `pos`
    back by `w`, and decrements the line counter exactly when the backed-up
    byte is a newline. -/
theorem Backup_eq {T : Type} (lx : Lexer T) (u : List Nat) (w : Nat)
    (hw : lx.width = u ++ [w]) :
    Lexer.Backup lx
      = { lx with
            width := u
            pos := lx.pos - w
            line := if w = 1 ∧ lx.input.getD (lx.pos - w) 0 = newlineRune
              then lx.line - 1 else lx.line } := by
  unfold Lexer.Backup
  rw [hw, List.getLast?_concat]
  rw [List.dropLast_concat]

open Avram Lex in
/-- Claim C7 (amended).  After a successful in-bounds read:
    `Lexer.Backup` pops exactly the width of the rune just read (the
    position returns to its pre-read value, the width history to its
    pre-read state) and decrements the line counter if and only if that rune
    was a newline; `Scanner.UnreadRune` also moves the position back by
    exactly that width and restores the width history, but leaves the line
    counter untouched even when the rune was a newline. -/
theorem backup_exact_width_spec {T : Type}
    (l l1 : Lexer T) (r : Int) (hpos : l.pos < l.input.length)
    (hread : Lexer.Read l = (l1, r))
    (s s1 : Scanner) (rs ws : Nat)
    (hs : s.ReadRune = (s1, .ok (rs, ws))) :
    (Lexer.Backup l1).pos = l.pos
    ∧ (Lexer.Backup l1).width = l.width
    ∧ (Lexer.Backup l1).line
        = (if r = (10 : Int) then l1.line - 1 else l1.line)
    ∧ (Scanner.UnreadRune s1).1.pos = s.pos
    ∧ (Scanner.UnreadRune s1).1.width = s.width
    ∧ (Scanner.UnreadRune s1).1.line = s1.line
    ∧ (Scanner.UnreadRune s1).2 = .ok () := by
  have hnle : ¬ (l.input.length ≤ l.pos) := not_le.mpr hpos
  unfold Lexer.Read at hread
  rw [if_neg hnle] at hread
  rw [Prod.mk.injEq] at hread
  obtain ⟨hl1, hr⟩ := hread
  have hdne : l.input.drop l.pos ≠ [] := by
    intro hnil
    rw [List.drop_eq_nil_iff] at hnil
    omega
  obtain ⟨b0, tail, hbt⟩ := List.exists_cons_of_ne_nil hdne
  have hB := Backup_eq l1 l.width (decodeRune (l.input.drop l.pos)).2
    (by rw [← hl1])
  have hinput : l1.input = l.input := by rw [← hl1]
  have hposl : l1.pos = l.pos + (decodeRune (l.input.drop l.pos)).2 := by
    rw [← hl1]
  have hlinel : l1.line
      = (if (decodeRune (l.input.drop l.pos)).1 = newlineRune then l.line + 1
        else l.line) := by rw [← hl1]
  have hposback : l1.pos - (decodeRune (l.input.drop l.pos)).2 = l.pos := by
    rw [hposl]
    omega
  have hgd : l.input.getD l.pos 0 = b0 := by
    rw [getD_headD_drop, hbt]
    rfl
  have hrune10 : ((decodeRune (l.input.drop l.pos)).1 = newlineRune) ↔ b0 = 10 := by
    rw [hbt]
    exact decode_newline_iff b0 tail
  have hlex : (Lexer.Backup l1).pos = l.pos
      ∧ (Lexer.Backup l1).width = l.width
      ∧ (Lexer.Backup l1).line
          = (if r = (10 : Int) then l1.line - 1 else l1.line) := by
    rw [hB]
    refine ⟨by simp [hposback], rfl, ?_⟩
    have hcond : ((decodeRune (l.input.drop l.pos)).2 = 1
        ∧ l1.input.getD (l1.pos - (decodeRune (l.input.drop l.pos)).2) 0 = newlineRune)
        ↔ (r = (10 : Int)) := by
      rw [hinput, hposback, hgd]
      constructor
      · rintro ⟨-, hb10⟩
        have hb' : b0 = 10 := hb10.trans rfl
        rw [← hr, hrune10.mpr hb']
        rfl
      · intro hr10
        have h10 : (decodeRune (l.input.drop l.pos)).1 = 10 := by
          exact_mod_cast hr.trans hr10
        have hb' : b0 = 10 := hrune10.mp (by rw [h10]; rfl)
        have hd10 : decodeRune (l.input.drop l.pos) = (10, 1) := by
          rw [hbt, hb']
          rfl
        exact ⟨by rw [hd10], hb'.trans rfl⟩
    rw [if_congr hcond rfl rfl]
  have hsle : ¬ (s.input.length ≤ s.pos) := by
    intro hle
    unfold Scanner.ReadRune at hs
    rw [if_pos hle] at hs
    rw [Prod.mk.injEq] at hs
    exact absurd hs.2 (by simp)
  unfold Scanner.ReadRune at hs
  rw [if_neg hsle] at hs
  rw [Prod.mk.injEq] at hs
  obtain ⟨hs1, hok⟩ := hs
  have hscan : (Scanner.UnreadRune s1).1.pos = s.pos
      ∧ (Scanner.UnreadRune s1).1.width = s.width
      ∧ (Scanner.UnreadRune s1).1.line = s1.line
      ∧ (Scanner.UnreadRune s1).2 = .ok () := by
    rw [← hs1]
    unfold Scanner.UnreadRune
    rw [if_neg (by simp)]
    refine ⟨?_, ?_, rfl, rfl⟩
    · simp [List.getLastD_concat]
    · simp [List.dropLast_concat]
  exact ⟨hlex.1, hlex.2.1, hlex.2.2, hscan.1, hscan.2.1, hscan.2.2.1, hscan.2.2.2⟩

open Avram in
/-- Claim C7 counterexample.  `Scanner.UnreadRune` never decrements the line
    counter: reading the newline of `"\n"` raises `line` to 1, and unreading
    it moves `pos` back to 0 and pops the width but leaves `line = 1`,
    where the claim requires the counter to drop back to 0. -/
theorem unread_newline_keeps_line_cex :
    (mkScanner "\n").ReadRune = (scanNL1, .ok (10, 1))
    ∧ Scanner.UnreadRune scanNL1
        = ({ scanNL1 with pos := 0, width := [] }, .ok ())
    ∧ (Scanner.UnreadRune scanNL1).1.line = 1
    ∧ (mkScanner "\n").line = 0 :=
  ⟨rfl, rfl, rfl, rfl⟩

open Avram Lex in
/-- Claim C7 witness: on `"\n"`, `Lexer.Backup` after the read returns the
    position to 0, restores the width history, and decrements the line
    counter back (the rune was a newline); `Scanner.UnreadRune` after the
    matching read also returns to position 0 but keeps `line = 1`. -/
theorem backup_exact_width_spec_witness :
    (Lexer.Backup lexNL1).pos = 0
    ∧ (Lexer.Backup lexNL1).width = []
    ∧ (Lexer.Backup lexNL1).line
        = (if (10 : Int) = (10 : Int) then lexNL1.line - 1 else lexNL1.line)
    ∧ (Scanner.UnreadRune scanNL1).1.pos = 0
    ∧ (Scanner.UnreadRune scanNL1).1.width = []
    ∧ (Scanner.UnreadRune scanNL1).1.line = scanNL1.line
    ∧ (Scanner.UnreadRune scanNL1).2 = .ok () :=
  backup_exact_width_spec (mkLexer [10]) lexNL1 10 (by decide) rfl
    (mkScanner "\n") scanNL1 10 1 rfl

open Avram in
/-- On a non-empty byte list the decoded width is between 1 and the number
    of available bytes. -/
theorem decode_width_bounds (bs : List Nat) (hne : bs ≠ []) :
    1 ≤ (decodeRune bs).2 ∧ (decodeRune bs).2 ≤ bs.length := by
  match bs with
  | [] => exact absurd rfl hne
  | [b0] =>
    simp only [decodeRune]
    split_ifs
    all_goals simp_all
  | [b0, b1] =>
    simp only [decodeRune]
    split_ifs
    all_goals simp_all
  | [b0, b1, b2] =>
    simp only [decodeRune]
    split_ifs
    all_goals simp_all
  | b0 :: b1 :: b2 :: b3 :: rest4 =>
    simp only [decodeRune]
    split_ifs
    all_goals simp_all

open Lex in
/-- The empty byte span. -/
theorem byteSpan_self (xs : List Nat) (a : Nat) : byteSpan xs a a = [] := by
  unfold byteSpan
  rw [List.drop_eq_nil_iff]
  simp [List.length_take]

open Lex in
/-- Adjacent byte spans tile. -/
theorem byteSpan_append (xs : List Nat) (a b c : Nat)
    (hab : a ≤ b) (hbc : b ≤ c) :
    byteSpan xs a b ++ byteSpan xs b c = byteSpan xs a c := by
  unfold byteSpan
  rw [List.drop_take, List.drop_take, List.drop_take]
  rw [show c - a = (b - a) + (c - b) by omega]
  rw [List.take_add]
  congr 1
  rw [List.drop_drop]
  rw [show a + (b - a) = b by omega]

open Avram Lex in
/-- `Backup` on a lexer whose width history has most recent entry `w`. -/
theorem Backup_eq2 {T : Type} (lx : Lexer T) (w : Nat)
    (hw : lx.width.getLast? = some w) :
    Lexer.Backup lx
      = { lx with
            width := lx.width.dropLast
            pos := lx.pos - w
            line := if w = 1 ∧ lx.input.getD (lx.pos - w) 0 = newlineRune
              then lx.line - 1 else lx.line } := by
  unfold Lexer.Backup
  rw [hw]

open Avram Lex in
/-- One safe primitive operation preserves the lexer invariant, never
    touches the input, never moves `start` backwards, and extends the
    covered text by exactly the span `[start, start')`. -/
theorem step_spec {T : Type} (l : Lexer T) (op : LexOp T)
    (hinv : lexInv l) (hsafe : safeOp l op = true) :
    lexInv (step l op)
    ∧ (step l op).input = l.input
    ∧ l.start ≤ (step l op).start
    ∧ (step l op).covered
        = l.covered ++ byteSpan l.input l.start (step l op).start := by
  obtain ⟨h1, h2⟩ := hinv
  cases op with
  | read =>
    simp only [step]
    by_cases hle : l.input.length ≤ l.pos
    · have hR : Lexer.Read l = ({ l with width := [] }, lexEOF) := by
        unfold Lexer.Read
        rw [if_pos hle]
      rw [hR]
      exact ⟨⟨h1, h2⟩, rfl, le_refl _, by rw [byteSpan_self]; simp⟩
    · have hdne : l.input.drop l.pos ≠ [] := by
        intro hnil
        rw [List.drop_eq_nil_iff] at hnil
        omega
      have hw := decode_width_bounds (l.input.drop l.pos) hdne
      have hlen : (l.input.drop l.pos).length = l.input.length - l.pos := by
        simp
      rw [hlen] at hw
      have hR : Lexer.Read l = ({ l with
            width := l.width ++ [(decodeRune (l.input.drop l.pos)).2]
            pos := l.pos + (decodeRune (l.input.drop l.pos)).2
            line := if (decodeRune (l.input.drop l.pos)).1 = newlineRune
              then l.line + 1 else l.line },
          ((decodeRune (l.input.drop l.pos)).1 : Int)) := by
        unfold Lexer.Read
        rw [if_neg hle]
      rw [hR]
      refine ⟨⟨by simp only [lexInv]; omega, by simp only [lexInv]; omega⟩,
        rfl, le_refl _, by rw [byteSpan_self]; simp⟩
  | backup =>
    simp only [step]
    cases hlast : l.width.getLast? with
    | none =>
      have hb : l.Backup = l := by
        unfold Lexer.Backup
        rw [hlast]
      rw [hb]
      exact ⟨⟨h1, h2⟩, rfl, le_refl _, by rw [byteSpan_self]; simp⟩
    | some w =>
      unfold safeOp at hsafe
      rw [hlast, decide_eq_true_eq] at hsafe
      rw [Backup_eq2 l w hlast]
      refine ⟨⟨by simp only [lexInv]; omega, by simp only [lexInv]; omega⟩,
        rfl, le_refl _, by rw [byteSpan_self]; simp⟩
  | emit t =>
    exact ⟨⟨le_refl _, h2⟩, rfl, h1, rfl⟩
  | drop =>
    exact ⟨⟨le_refl _, h2⟩, rfl, h1, rfl⟩

open Lex in
/-- Running an appended operation list is running the parts in sequence. -/
theorem runOps_append {T : Type} (ops1 ops2 : List (LexOp T)) :
    ∀ l : Lexer T, runOps l (ops1 ++ ops2) = runOps (runOps l ops1) ops2 := by
  induction ops1 with
  | nil => intro l; rfl
  | cons op ops ih =>
    intro l
    show runOps (step l op) (ops ++ ops2) = _
    rw [ih (step l op)]
    rfl

open Lex in
/-- Safety of an appended operation list splits at the join point. -/
theorem safeOps_append {T : Type} (ops1 ops2 : List (LexOp T)) :
    ∀ l : Lexer T,
      safeOps l (ops1 ++ ops2) = (safeOps l ops1 && safeOps (runOps l ops1) ops2) := by
  induction ops1 with
  | nil => intro l; rfl
  | cons op ops ih =>
    intro l
    show (safeOp l op && safeOps (step l op) (ops ++ ops2)) = _
    rw [ih (step l op)]
    rw [← Bool.and_assoc]
    rfl

open Avram Lex in
/-- A safe run preserves the lexer invariant, keeps the input intact, moves
    `start` monotonically, and covers exactly `[start₀, startFinal)`. -/
theorem runOps_spec {T : Type} (ops : List (LexOp T)) :
    ∀ l : Lexer T, lexInv l → safeOps l ops = true →
      lexInv (runOps l ops)
      ∧ (runOps l ops).input = l.input
      ∧ l.start ≤ (runOps l ops).start
      ∧ (runOps l ops).covered
          = l.covered ++ byteSpan l.input l.start (runOps l ops).start := by
  induction ops with
  | nil =>
    intro l hinv _
    refine ⟨hinv, rfl, le_refl _, ?_⟩
    show l.covered = l.covered ++ byteSpan l.input l.start l.start
    rw [byteSpan_self]
    simp
  | cons op ops ih =>
    intro l hinv hsafe
    unfold safeOps at hsafe
    rw [Bool.and_eq_true] at hsafe
    obtain ⟨hop, hops⟩ := hsafe
    obtain ⟨hinv1, hin1, hst1, hcov1⟩ := step_spec l op hinv hop
    obtain ⟨hinv2, hin2, hst2, hcov2⟩ := ih (step l op) hinv1 hops
    show lexInv (runOps (step l op) ops)
      ∧ (runOps (step l op) ops).input = l.input
      ∧ l.start ≤ (runOps (step l op) ops).start
      ∧ (runOps (step l op) ops).covered
          = l.covered ++ byteSpan l.input l.start (runOps (step l op) ops).start
    refine ⟨hinv2, by rw [hin2, hin1], le_trans hst1 hst2, ?_⟩
    rw [hcov2, hcov1, hin1, List.append_assoc]
    rw [byteSpan_append l.input l.start (step l op).start
      (runOps (step l op) ops).start hst1 hst2]

open Avram Lex in
/-- Claim C8 counterexample.  The claimed invariant `0 ≤ start ≤ pos` is not
    an invariant of the lexer state: a state function may `Backup` across an
    `Emit` boundary, because `Emit` does not clear the width history.  On
    input `"ab"`, `Read`, `Emit`, `Backup` leaves `start = 1 > pos = 0`. -/
theorem lexer_backup_breaks_invariant_cex :
    (runOps (Lex.mkLexer (T := Unit) (Avram.strBytes "ab"))
        [.read, .emit (), .backup]).start = 1
    ∧ (runOps (Lex.mkLexer (T := Unit) (Avram.strBytes "ab"))
        [.read, .emit (), .backup]).pos = 0
    ∧ ¬ lexInv (runOps (Lex.mkLexer (T := Unit) (Avram.strBytes "ab"))
        [.read, .emit (), .backup]) :=
  ⟨rfl, rfl, fun h => absurd h.1 (by decide)⟩

open Avram Lex in
/-- Claim C8 (amended).  For every run of lexer operations in which every
    `Backup` undoes a `Read` made since the last `Emit`/`Drop` boundary (the
    `safeOps` side condition; without it the counterexample applies),
    `0 ≤ start ≤ pos ≤ len(input)` holds after every prefix of the run, each
    `Emit`/`Drop` covers exactly `[start, pos)`, so the concatenation of
    every emitted token body and every dropped span — the ghost `covered`
    field — is exactly `input[0:start]`; when the run ends with
    `start = len(input)`, that concatenation reconstructs the input
    exactly. -/
theorem lexer_reconstruction_spec {T : Type} (input : List Nat)
    (ops : List (LexOp T))
    (hsafe : safeOps (mkLexer input) ops = true) :
    (∀ ops1 ops2, ops = ops1 ++ ops2 → lexInv (runOps (mkLexer input) ops1))
    ∧ (runOps (mkLexer input) ops).covered
        = input.take (runOps (mkLexer input) ops).start
    ∧ ((runOps (mkLexer input) ops).start = input.length →
        (runOps (mkLexer input) ops).covered = input) := by
  have hinv0 : lexInv (mkLexer (T := T) input) := ⟨le_refl 0, Nat.zero_le _⟩
  obtain ⟨hinv, hin, hst, hcov⟩ := runOps_spec ops (mkLexer input) hinv0 hsafe
  have hmain : (runOps (mkLexer input) ops).covered
      = input.take (runOps (mkLexer input) ops).start := by
    rw [hcov]
    show byteSpan input 0 _ = _
    unfold byteSpan
    rfl
  refine ⟨?_, hmain, ?_⟩
  · intro ops1 ops2 hsplit
    have hs1 : safeOps (mkLexer (T := T) input) ops1 = true := by
      rw [hsplit, safeOps_append] at hsafe
      exact (Bool.and_eq_true .. ▸ hsafe).1
    exact (runOps_spec ops1 (mkLexer input) hinv0 hs1).1
  · intro hend
    rw [hmain, hend]
    simp

open Avram Lex in
/-- Claim C8 witness: on `"ab"` the safe run `Read, Emit, Read, Drop`
    keeps the invariant at an intermediate point, covers `input[0:start]`,
    and — since it ends with `start = len` — the emitted body `"a"` plus the
    dropped span `"b"` reconstruct the input exactly. -/
theorem lexer_reconstruction_spec_witness :
    lexInv (runOps (mkLexer (T := Unit) (strBytes "ab")) [.read, .emit ()])
    ∧ (runOps (mkLexer (T := Unit) (strBytes "ab"))
        [.read, .emit (), .read, .drop]).covered
        = (strBytes "ab").take
          (runOps (mkLexer (T := Unit) (strBytes "ab"))
            [.read, .emit (), .read, .drop]).start
    ∧ (runOps (mkLexer (T := Unit) (strBytes "ab"))
        [.read, .emit (), .read, .drop]).covered = strBytes "ab" :=
  ⟨(lexer_reconstruction_spec (strBytes "ab") [.read, .emit (), .read, .drop]
      (by decide)).1 [.read, .emit ()] [.read, .drop] rfl,
    (lexer_reconstruction_spec (strBytes "ab") [.read, .emit (), .read, .drop]
      (by decide)).2.1,
    (lexer_reconstruction_spec (strBytes "ab") [.read, .emit (), .read, .drop]
      (by decide)).2.2 (by decide)⟩
